import Mathlib

/-!
Shallow embedding of src/kenpom.py (module kenpom: KenPomParser, Team,
_create_teams, and the numeric coercions they call).

Modelling choices:
- Python exceptions (TypeError, ValueError) are modelled by the error type
  PyErr; fallible operations return Except PyErr.
- Python float values are modelled as exact decimal rationals (Rat): every
  numeric token the claims compare is a short decimal literal, whose Python
  float parse and whose Lean literal denote the same decimal, so equality of
  the exact decimal values coincides with equality of the IEEE doubles for
  every comparison the claims make.  IEEE rounding itself is not modelled.
- Python int() / float() string grammars are modelled over ASCII: optional
  surrounding whitespace, an optional sign, digit runs that may contain
  single underscores between digits, and for float an optional fraction and
  exponent.  The inf/nan spellings accepted by float() are not modelled;
  no claim mentions them.
- Python dict is modelled as an insertion-ordered association list whose
  insert updates an existing key in place (dictInsert), matching dict
  assignment semantics.
-/

set_option linter.unusedVariables false

deriving instance DecidableEq for Except

inductive PyErr where
  | typeError
  | valueError
deriving DecidableEq

/-- A Python value as seen by str.join: either a str or a non-str (here int). -/
inductive PyVal where
  | int (i : Int)
  | str (s : String)
deriving DecidableEq

/-- ASCII whitespace stripped by Python int()/float() string conversion. -/
def isWs (c : Char) : Bool :=
  c = ' ' || c = '\t' || c = '\n' || c = '\r' || c = '\x0b' || c = '\x0c'

def trimLeft (cs : List Char) : List Char :=
  cs.dropWhile isWs

def trimRight (cs : List Char) : List Char :=
  (cs.reverse.dropWhile isWs).reverse

/-- Whitespace stripping performed by Python int()/float() on string input. -/
def stripWs (cs : List Char) : List Char :=
  trimRight (trimLeft cs)

def dval (c : Char) : Nat := c.toNat - 48

/-- Greedily consume a Python digit run: digits, with single underscores
allowed between digits (an underscore is consumed only when at least one
digit was already consumed in this run and a digit follows).  Returns the
accumulated value, the number of digits consumed, and the rest. -/
def consumeDigits : Nat → Nat → List Char → Nat × Nat × List Char
  | acc, k, [] => (acc, k, [])
  | acc, k, [c] =>
    if c.isDigit then (10 * acc + dval c, k + 1, []) else (acc, k, [c])
  | acc, k, c :: c' :: cs =>
    if c.isDigit then
      consumeDigits (10 * acc + dval c) (k + 1) (c' :: cs)
    else if c = '_' ∧ 0 < k ∧ c'.isDigit then
      consumeDigits (10 * acc + dval c') (k + 1) cs
    else (acc, k, c :: c' :: cs)

/-- Optional leading sign: returns (isNegative, rest). -/
def afterSign : List Char → Bool × List Char
  | [] => (false, [])
  | c :: r =>
    if c = '+' then (false, r)
    else if c = '-' then (true, r)
    else (false, c :: r)

/-- Python int() on an already-stripped character list. -/
def pyIntStripped (cs : List Char) : Option Int :=
  match afterSign cs with
  | (neg, cs1) =>
    match consumeDigits 0 0 cs1 with
    | (v, k, rest) =>
      if k = 0 ∨ rest ≠ [] then none
      else if neg then some (-(v : Int)) else some (v : Int)

/-- Python int() on a character list (strips surrounding whitespace first). -/
def pyIntCore (cs : List Char) : Option Int :=
  pyIntStripped (stripWs cs)

/-- Fraction part of a float literal: if the input starts with a dot,
consume a (possibly empty) digit run after it. -/
def fracPart : List Char → Nat × Nat × List Char
  | [] => (0, 0, [])
  | c :: r => if c = '.' then consumeDigits 0 0 r else (0, 0, c :: r)

def applySign (neg : Bool) (q : ℚ) : ℚ := if neg then -q else q

/-- Exact value of the decimal literal with integer part ip, fk-digit
fraction part fp, and integer exponent ex: (ip.fp) times ten to the ex. -/
def decValue (ip fp fk : Nat) : Int → ℚ
  | Int.ofNat n => mkRat (Int.ofNat ((ip * 10 ^ fk + fp) * 10 ^ n)) (10 ^ fk)
  | Int.negSucc n => mkRat (Int.ofNat (ip * 10 ^ fk + fp)) (10 ^ fk * 10 ^ (n + 1))

/-- Python float() on an already-stripped character list. -/
def pyFloatStripped (cs : List Char) : Option ℚ :=
  match afterSign cs with
  | (neg, cs1) =>
    match consumeDigits 0 0 cs1 with
    | (ip, ik, cs2) =>
      match fracPart cs2 with
      | (fp, fk, cs3) =>
        if ik + fk = 0 then none
        else
          match cs3 with
          | [] => some (applySign neg (decValue ip fp fk 0))
          | 'e' :: r => (pyIntStripped r).map (fun ex => applySign neg (decValue ip fp fk ex))
          | 'E' :: r => (pyIntStripped r).map (fun ex => applySign neg (decValue ip fp fk ex))
          | _ => none

/-- Python float() on a character list (strips surrounding whitespace first). -/
def pyFloatCore (cs : List Char) : Option ℚ :=
  pyFloatStripped (stripWs cs)

/-- int(tok) as an Except computation (ValueError on a bad literal). -/
def pyIntE (cs : List Char) : Except PyErr Int :=
  match pyIntCore cs with
  | some v => Except.ok v
  | none => Except.error PyErr.valueError

/-- float(tok) as an Except computation (ValueError on a bad literal). -/
def pyFloatE (cs : List Char) : Except PyErr ℚ :=
  match pyFloatCore cs with
  | some v => Except.ok v
  | none => Except.error PyErr.valueError

/-- Python str.split with separator, specialised to one character:
splitHyphenAux cur cs splits cs on the hyphen, with cur the (reversed)
pending segment. -/
def splitHyphenAux (cur : List Char) : List Char → List (List Char)
  | [] => [cur.reverse]
  | c :: cs =>
    if c = '-' then cur.reverse :: splitHyphenAux [] cs
    else splitHyphenAux (c :: cur) cs

/-- Python rec.split with a hyphen argument. -/
def pySplitHyphen (s : String) : List (List Char) :=
  splitHyphenAux [] s.data

/-- Team dataclass of kenpom.py (statistics as exact rationals, see header). -/
structure Team where
  rank : Int
  name : String
  conference : String
  wins : Int
  losses : Int
  efficiency : ℚ
  offense : ℚ
  defense : ℚ
  tempo : ℚ
  luck : ℚ
  opponent_efficiency : ℚ
  opponent_offense : ℚ
  opponent_defense : ℚ
  nonconference_opponent_efficiency : ℚ
deriving DecidableEq

/-- Property d of Team. -/
def Team.d (self : Team) : ℚ := self.defense

/-- Property e of Team. -/
def Team.e (self : Team) : ℚ := self.efficiency

/-- Property l of Team. -/
def Team.l (self : Team) : Int := self.losses

/-- Property nc_o_e of Team. -/
def Team.nc_o_e (self : Team) : ℚ := self.nonconference_opponent_efficiency

/-- Property o of Team. -/
def Team.o (self : Team) : ℚ := self.offense

/-- Property o_d of Team. -/
def Team.o_d (self : Team) : ℚ := self.opponent_defense

/-- Property o_e of Team. -/
def Team.o_e (self : Team) : ℚ := self.opponent_efficiency

/-- Property o_o of Team. -/
def Team.o_o (self : Team) : ℚ := self.opponent_offense

/-- Property t of Team. -/
def Team.t (self : Team) : ℚ := self.tempo

/-- Property w of Team. -/
def Team.w (self : Team) : Int := self.wins

/-- Item conversion performed by str.join on each joined item: a non-str
item raises TypeError. -/
def pyStrOf : PyVal → Except PyErr String
  | PyVal.str s => Except.ok s
  | PyVal.int _ => Except.error PyErr.typeError

/-- Python sep.join(items): every item must already be a str. -/
def pyJoin (sep : String) (items : List PyVal) : Except PyErr String := do
  let ss ← items.mapM pyStrOf
  return String.intercalate sep ss

/-- Property record of Team, exactly as the source computes it:
a hyphen join applied to the tuple (self.wins, self.losses), whose
elements are ints. -/
def Team.record (self : Team) : Except PyErr String :=
  pyJoin "-" [PyVal.int self.wins, PyVal.int self.losses]

/-- Structural markup events fed to the HTMLParser subclass. -/
inductive Event where
  | startTag (tag : String)
  | endTag (tag : String)
  | text (data : String)
deriving DecidableEq

/-- Mutable state of KenPomParser: self.row and self.rows. -/
structure ParserState where
  row : Option (List String)
  rows : List (List String)
deriving DecidableEq

/-- KenPomParser.__init__: self.row = None; self.rows = []. -/
def initState : ParserState := ParserState.mk none []

/-- KenPomParser.handle_starttag. -/
def handle_starttag (s : ParserState) (tag : String) : ParserState :=
  if tag = "tr" then ParserState.mk (some []) s.rows else s

/-- KenPomParser.handle_endtag: len(self.row) raises TypeError when
self.row is None. -/
def handle_endtag (s : ParserState) (tag : String) : Except PyErr ParserState :=
  if tag = "tr" then
    match s.row with
    | none => Except.error PyErr.typeError
    | some r =>
      Except.ok (ParserState.mk none
        (if r.length = 22 then s.rows ++ [r.drop 1] else s.rows))
  else Except.ok s

/-- KenPomParser.handle_data. -/
def handle_data (s : ParserState) (data : String) : ParserState :=
  match s.row with
  | some r => ParserState.mk (some (r ++ [data])) s.rows
  | none => s

/-- Feeding a stream of events through the parser. -/
def feed (s : ParserState) : List Event → Except PyErr ParserState
  | [] => Except.ok s
  | Event.startTag tag :: es => feed (handle_starttag s tag) es
  | Event.endTag tag :: es =>
    match handle_endtag s tag with
    | Except.error err => Except.error err
    | Except.ok s' => feed s' es
  | Event.text dat :: es => feed (handle_data s dat) es

/-- The result mapping: a Python dict modelled as an insertion-ordered
association list. -/
def Dict : Type := List (String × Team)

instance : DecidableEq Dict := inferInstanceAs (DecidableEq (List (String × Team)))

/-- Python dict assignment teams[key] = v: update in place if the key is
present, else append. -/
def dictInsert (key : String) (v : Team) : List (String × Team) → List (String × Team)
  | [] => [(key, v)]
  | (k, w) :: rest =>
    if k = key then (key, v) :: rest else (k, w) :: dictInsert key v rest

/-- Python dict lookup teams[key]. -/
def dictLookup (key : String) : List (String × Team) → Option Team
  | [] => none
  | (k, w) :: rest => if k = key then some w else dictLookup key rest

/-- Number of entries of the association list holding the given key. -/
def countKey (key : String) : List (String × Team) → Nat
  | [] => 0
  | (k, _) :: rest => (if k = key then 1 else 0) + countKey key rest

/-- Body of the _create_teams loop for one destructured row, in source
order: rec.split, then int(rank), int(wins), int(losses), then the nine
float conversions, then the Team construction keyed by name. -/
def parseFields (rank name conf recTok e o d t luck o_e o_o o_d nc_o_e : String) :
    Except PyErr (String × Team) :=
  match pySplitHyphen recTok with
  | [wTok, lTok] => do
    let rankv ← pyIntE rank.data
    let winsv ← pyIntE wTok
    let lossesv ← pyIntE lTok
    let ev ← pyFloatE e.data
    let ov ← pyFloatE o.data
    let dv ← pyFloatE d.data
    let tv ← pyFloatE t.data
    let luckv ← pyFloatE luck.data
    let o_ev ← pyFloatE o_e.data
    let o_ov ← pyFloatE o_o.data
    let o_dv ← pyFloatE o_d.data
    let nc_o_ev ← pyFloatE nc_o_e.data
    return (name, Team.mk rankv name conf winsv lossesv ev ov dv tv luckv o_ev o_ov o_dv nc_o_ev)
  | _ => Except.error PyErr.valueError

/-- Processing of one row by _create_teams: the 21-name tuple destructuring
of the for statement (ValueError on any other width), then parseFields. -/
def parseRow (row : List String) : Except PyErr (String × Team) :=
  match row with
  | [rank, name, conf, recTok, e, o, _, d, _, t, _, luck, _,
     o_e, _, o_o, _, o_d, _, nc_o_e, _] =>
    parseFields rank name conf recTok e o d t luck o_e o_o o_d nc_o_e
  | _ => Except.error PyErr.valueError

/-- Win-loss handling of _create_teams restricted to the record token
(lines 158 and 160 of the source): split on the hyphen, unpack into
exactly two names, convert each with int(). -/
def parseWinLoss (recTok : String) : Except PyErr (Int × Int) :=
  match pySplitHyphen recTok with
  | [wTok, lTok] =>
    match pyIntE wTok with
    | Except.error err => Except.error err
    | Except.ok wv =>
      match pyIntE lTok with
      | Except.error err => Except.error err
      | Except.ok lv => Except.ok (wv, lv)
  | _ => Except.error PyErr.valueError

/-- Loop of _create_teams over the extracted rows, threading the dict. -/
def createTeamsAux (teams : List (String × Team)) :
    List (List String) → Except PyErr (List (String × Team))
  | [] => Except.ok teams
  | row :: rest =>
    match parseRow row with
    | Except.error err => Except.error err
    | Except.ok (name, team) => createTeamsAux (dictInsert name team teams) rest

/-- kenpom._create_teams. -/
def _create_teams (team_data : List (List String)) : Except PyErr (List (String × Team)) :=
  createTeamsAux [] team_data

/-- kenpom.get with the network fetch abstracted into the event stream of
the fetched document: feed the parser, then build the teams. -/
def getFromEvents (events : List Event) : Except PyErr (List (String × Team)) :=
  match feed initState events with
  | Except.error err => Except.error err
  | Except.ok st => _create_teams st.rows

/-- Data row of the synthetic end-to-end scenario (22 raw tokens). -/
def acmeTokens : List String :=
  ["icon", "1", "Acme U", "Big Conf", "30-4", "28.5", "120.3", "—", "95.1", "—",
   "68.2", "—", "0.05", "—", "99.0", "—", "110.0", "—", "90.0", "—", "85.0", "—"]

/-- The 21-token row the extractor hands to the builder for the data row. -/
def acmeRow : List String := acmeTokens.drop 1

/-- Team the synthetic data row parses to (decimal statistics written as
explicit rationals: 28.5, 120.3, 95.1, 68.2, 0.05, 99, 110, 90, 85). -/
def acmeTeam : Team :=
  Team.mk 1 "Acme U" "Big Conf" 30 4 (mkRat 57 2) (mkRat 1203 10) (mkRat 951 10)
    (mkRat 341 5) (mkRat 1 20) 99 110 90 85

/-- Synthetic document of the end-to-end scenario: one header row of given
tokens, then the Acme data row. -/
def syntheticDoc (header : List String) : List Event :=
  Event.startTag "tr" :: (header.map Event.text ++ (Event.endTag "tr" ::
    (Event.startTag "tr" :: (acmeTokens.map Event.text ++ [Event.endTag "tr"]))))

/-- Simple 21-token row that parses successfully (team named X, rank 1,
record 1-0, all statistics 1). -/
def simpleRow : List String :=
  ["1", "X", "C", "1-0", "1", "1", "-", "1", "-", "1", "-", "1", "-",
   "1", "-", "1", "-", "1", "-", "1", "-"]

/-- Second row with the same name X as simpleRow but different values. -/
def simpleRow2 : List String :=
  ["2", "X", "C", "3-2", "2", "2", "-", "2", "-", "2", "-", "2", "-",
   "2", "-", "2", "-", "2", "-", "2", "-"]

/-- Row whose win-loss token is malformed (no hyphen): fails to parse. -/
def badRow : List String :=
  ["3", "Y", "C", "30", "1", "1", "-", "1", "-", "1", "-", "1", "-",
   "1", "-", "1", "-", "1", "-", "1", "-"]

/-- Row identical to simpleRow except its rank token is 0. -/
def rankZeroRow : List String :=
  ["0", "X", "C", "1-0", "1", "1", "-", "1", "-", "1", "-", "1", "-",
   "1", "-", "1", "-", "1", "-", "1", "-"]

/-- Team simpleRow parses to. -/
def simpleTeam : Team := Team.mk 1 "X" "C" 1 0 1 1 1 1 1 1 1 1 1

/-- Team simpleRow2 parses to. -/
def simpleTeam2 : Team := Team.mk 2 "X" "C" 3 2 2 2 2 2 2 2 2 2 2

/-- Whether a row parses (under _create_teams) to a team with this name. -/
def rowNamed (name : String) (row : List String) : Bool :=
  match parseRow row with
  | Except.ok (n, _) => decide (n = name)
  | Except.error _ => false

/-- Last row of the list that parses to a team with this name. -/
def lastNamed (name : String) : List (List String) → Option (List String)
  | [] => none
  | row :: rest =>
    match lastNamed name rest with
    | some r => some r
    | none => if rowNamed name row then some row else none

/-! ## Lemmas about the row extractor -/

lemma feed_texts (ts : List String) (buf : List String) (rows : List (List String))
    (es : List Event) :
    feed (ParserState.mk (some buf) rows) (ts.map Event.text ++ es) =
      feed (ParserState.mk (some (buf ++ ts)) rows) es := by
  induction ts generalizing buf with
  | nil => simp
  | cons tok ts ih =>
    have hs : (tok :: ts).map Event.text ++ es = Event.text tok :: (ts.map Event.text ++ es) := rfl
    rw [hs]
    show feed (handle_data (ParserState.mk (some buf) rows) tok) (ts.map Event.text ++ es) = _
    have hd : handle_data (ParserState.mk (some buf) rows) tok =
        ParserState.mk (some (buf ++ [tok])) rows := rfl
    rw [hd, ih (buf ++ [tok])]
    simp [List.append_assoc]

lemma feed_tr_row (s : ParserState) (ts : List String) (es : List Event) :
    feed s (Event.startTag "tr" :: (ts.map Event.text ++ (Event.endTag "tr" :: es))) =
      feed (ParserState.mk none
        (s.rows ++ if ts.length = 22 then [ts.drop 1] else [])) es := by
  show feed (handle_starttag s "tr") _ = _
  have h1 : handle_starttag s "tr" = ParserState.mk (some []) s.rows := by
    simp [handle_starttag]
  rw [h1, feed_texts ts [] s.rows (Event.endTag "tr" :: es)]
  show (match handle_endtag (ParserState.mk (some ([] ++ ts)) s.rows) "tr" with
    | Except.error err => Except.error err
    | Except.ok s' => feed s' es) = _
  have h2 : handle_endtag (ParserState.mk (some ([] ++ ts)) s.rows) "tr" =
      Except.ok (ParserState.mk none
        (s.rows ++ if ts.length = 22 then [ts.drop 1] else [])) := by
    simp only [List.nil_append, handle_endtag, if_pos rfl]
    by_cases h : ts.length = 22 <;> simp [h]
  rw [h2]

/-- C2 counterexample: on the concrete event stream consisting of a single
tag-close for a table-row element, with no current row buffer open, the
extractor raises a TypeError (len of None) instead of handling the event
without error, and does not leave the state unchanged. -/
theorem c2_counterexample :
    feed initState [Event.endTag "tr"] = Except.error PyErr.typeError ∧
      feed initState [Event.endTag "tr"] ≠ Except.ok initState := by decide

/-- C2 (amended): for every event stream, when the extractor receives a
tag-close event for a table-row element while no current row buffer is
open, it raises a TypeError (the handler takes the length of the absent
buffer); the accumulated row list is never delivered for that stream. -/
theorem c2_amended (rows : List (List String)) (es : List Event) :
    feed (ParserState.mk none rows) (Event.endTag "tr" :: es) =
      Except.error PyErr.typeError := by
  simp [feed, handle_endtag]

/-- C3: for every well-nested table row (tag-open, a sequence of text
events, tag-close) fed from any parser state: no error is raised, the
buffer ends absent, and the row minus its first token is appended to the
output row list exactly when 22 text tokens were collected; otherwise the
row list is unchanged. -/
theorem c3_well_nested_row (s : ParserState) (ts : List String) :
    feed s (Event.startTag "tr" :: (ts.map Event.text ++ [Event.endTag "tr"])) =
      Except.ok (ParserState.mk none
        (s.rows ++ if ts.length = 22 then [ts.drop 1] else [])) := by
  rw [show (ts.map Event.text ++ [Event.endTag "tr"]) =
      (ts.map Event.text ++ (Event.endTag "tr" :: [])) from rfl]
  rw [feed_tr_row s ts []]
  rfl

/-- C9: for every constructed Record, each short-name alias equals its
corresponding long-name field: d=defense, e=efficiency, l=losses,
nc_o_e=nonconference_opponent_efficiency, o=offense, o_d=opponent_defense,
o_e=opponent_efficiency, o_o=opponent_offense, t=tempo, w=wins. -/
theorem c9_alias_consistency (team : Team) :
    team.d = team.defense ∧ team.e = team.efficiency ∧ team.l = team.losses ∧
    team.nc_o_e = team.nonconference_opponent_efficiency ∧ team.o = team.offense ∧
    team.o_d = team.opponent_defense ∧ team.o_e = team.opponent_efficiency ∧
    team.o_o = team.opponent_offense ∧ team.t = team.tempo ∧ team.w = team.wins :=
  ⟨rfl, rfl, rfl, rfl, rfl, rfl, rfl, rfl, rfl, rfl⟩

/-- C1: the builder parses the synthetic data row into the expected Record,
but accessing the derived record display field raises a TypeError, because
the source joins the int-typed wins and losses with str.join without
converting them to strings; the field never produces the win-loss token. -/
theorem c1_record_raises :
    parseRow acmeRow = Except.ok ("Acme U", acmeTeam) ∧
      Team.record acmeTeam = Except.error PyErr.typeError := by decide

/-! ## End-to-end scenario -/

lemma rat_57_2 : mkRat 57 2 = (28.5 : ℚ) := by
  rw [Rat.mkRat_eq_div]; norm_num

lemma rat_1203_10 : mkRat 1203 10 = (120.3 : ℚ) := by
  rw [Rat.mkRat_eq_div]; norm_num

lemma rat_951_10 : mkRat 951 10 = (95.1 : ℚ) := by
  rw [Rat.mkRat_eq_div]; norm_num

lemma rat_341_5 : mkRat 341 5 = (68.2 : ℚ) := by
  rw [Rat.mkRat_eq_div]; norm_num

lemma rat_1_20 : mkRat 1 20 = (0.05 : ℚ) := by
  rw [Rat.mkRat_eq_div]; norm_num

/-- C6: on the synthetic document made of a header row with fewer than 22
tokens and then the 22-token Acme data row, the extractor followed by the
builder yields a mapping with exactly one key, Acme U, whose Record has
the claimed field values. -/
theorem c6_end_to_end (header : List String) (h : header.length < 22) :
    ∃ st : ParserState, feed initState (syntheticDoc header) = Except.ok st ∧
      ∃ team : Team, _create_teams st.rows = Except.ok [("Acme U", team)] ∧
        team.rank = 1 ∧ team.conference = "Big Conf" ∧ team.wins = 30 ∧
        team.losses = 4 ∧ team.efficiency = 28.5 ∧ team.offense = 120.3 ∧
        team.defense = 95.1 ∧ team.tempo = 68.2 ∧ team.luck = 0.05 ∧
        team.opponent_efficiency = 99 ∧ team.opponent_offense = 110 ∧
        team.opponent_defense = 90 ∧ team.nonconference_opponent_efficiency = 85 := by
  have hne : header.length ≠ 22 := by omega
  refine ⟨ParserState.mk none [acmeRow], ?_, acmeTeam, by decide, rfl, rfl, rfl, rfl,
    rat_57_2, rat_1203_10, rat_951_10, rat_341_5, rat_1_20, rfl, rfl, rfl, rfl⟩
  show feed initState
    (Event.startTag "tr" :: (header.map Event.text ++ (Event.endTag "tr" ::
      (Event.startTag "tr" :: (acmeTokens.map Event.text ++ [Event.endTag "tr"]))))) = _
  rw [feed_tr_row initState header]
  simp only [if_neg hne, List.append_nil]
  decide

/-- Witness for C6 at the concrete one-token header. -/
theorem c6_witness :
    ∃ st : ParserState, feed initState (syntheticDoc ["Team"]) = Except.ok st ∧
      ∃ team : Team, _create_teams st.rows = Except.ok [("Acme U", team)] ∧
        team.rank = 1 ∧ team.conference = "Big Conf" ∧ team.wins = 30 ∧
        team.losses = 4 ∧ team.efficiency = 28.5 ∧ team.offense = 120.3 ∧
        team.defense = 95.1 ∧ team.tempo = 68.2 ∧ team.luck = 0.05 ∧
        team.opponent_efficiency = 99 ∧ team.opponent_offense = 110 ∧
        team.opponent_defense = 90 ∧ team.nonconference_opponent_efficiency = 85 :=
  c6_end_to_end ["Team"] (by decide)

/-! ## Lemmas about hyphen splitting and integer coercion -/

lemma splitHyphenAux_length (cs : List Char) :
    ∀ cur, (splitHyphenAux cur cs).length = cs.count '-' + 1 := by
  induction cs with
  | nil => intro cur; simp [splitHyphenAux]
  | cons c cs ih =>
    intro cur
    by_cases h : c = '-'
    · subst h
      simp [splitHyphenAux, ih, List.count_cons]
    · simp [splitHyphenAux, h, ih, List.count_cons]

lemma splitHyphenAux_no_hyphen (cs : List Char) :
    ∀ cur, '-' ∉ cur → ∀ p ∈ splitHyphenAux cur cs, '-' ∉ p := by
  induction cs with
  | nil =>
    intro cur hcur p hp
    have hpc : p = cur.reverse := by simpa [splitHyphenAux] using hp
    subst hpc
    simpa using hcur
  | cons c cs ih =>
    intro cur hcur p hp
    by_cases h : c = '-'
    · subst h
      rw [show splitHyphenAux cur ('-' :: cs) = cur.reverse :: splitHyphenAux [] cs from by
        simp [splitHyphenAux]] at hp
      rcases List.mem_cons.mp hp with h1 | h1
      · subst h1; simpa using hcur
      · exact ih [] (by simp) p h1
    · rw [show splitHyphenAux cur (c :: cs) = splitHyphenAux (c :: cur) cs from by
        simp [splitHyphenAux, h]] at hp
      refine ih (c :: cur) ?_ p hp
      intro hm
      rcases List.mem_cons.mp hm with h1 | h1
      · exact h h1.symm
      · exact hcur h1

lemma pySplitHyphen_length (s : String) :
    (pySplitHyphen s).length = s.data.count '-' + 1 :=
  splitHyphenAux_length s.data []

lemma pySplitHyphen_no_hyphen (s : String) (p : List Char) (hp : p ∈ pySplitHyphen s) :
    '-' ∉ p :=
  splitHyphenAux_no_hyphen s.data [] (by simp) p hp

lemma mem_dropWhile (p : Char → Bool) (c : Char) (cs : List Char) (h : c ∈ cs.dropWhile p) :
    c ∈ cs :=
  (List.dropWhile_sublist p).mem h

lemma mem_of_mem_stripWs (c : Char) (cs : List Char) (h : c ∈ stripWs cs) : c ∈ cs := by
  unfold stripWs trimRight trimLeft at h
  rw [List.mem_reverse] at h
  have h1 := mem_dropWhile isWs c _ h
  rw [List.mem_reverse] at h1
  exact mem_dropWhile isWs c _ h1

lemma afterSign_not_neg (cs : List Char) (hno : '-' ∉ cs) : (afterSign cs).1 = false := by
  cases cs with
  | nil => rfl
  | cons c r =>
    have hc : c ≠ '-' := by intro h; exact hno (h ▸ List.mem_cons_self c r)
    by_cases hp : c = '+' <;> simp [afterSign, hp, hc]

lemma pyIntStripped_nonneg (cs : List Char) (v : Int) (hno : '-' ∉ cs)
    (h : pyIntStripped cs = some v) : 0 ≤ v := by
  unfold pyIntStripped at h
  rcases hsgn : afterSign cs with ⟨neg, cs1⟩
  rw [hsgn] at h
  have hneg : neg = false := by
    have := afterSign_not_neg cs hno
    rw [hsgn] at this
    exact this
  subst hneg
  dsimp only at h
  rcases hcd : consumeDigits 0 0 cs1 with ⟨w, k, rest⟩
  rw [hcd] at h
  dsimp only at h
  by_cases hk : k = 0 ∨ rest ≠ []
  · simp [hk] at h
  · rw [if_neg hk] at h
    simp only [Bool.false_eq_true, if_false] at h
    have hv : v = (w : Int) := by
      have := Option.some.inj h
      omega
    subst hv
    exact Int.ofNat_nonneg w

lemma pyIntCore_nonneg (cs : List Char) (v : Int) (hno : '-' ∉ cs)
    (h : pyIntCore cs = some v) : 0 ≤ v := by
  refine pyIntStripped_nonneg (stripWs cs) v ?_ h
  intro hmem
  exact hno (mem_of_mem_stripWs _ _ hmem)

lemma pyIntE_ok (cs : List Char) (v : Int) (h : pyIntE cs = Except.ok v) :
    pyIntCore cs = some v := by
  unfold pyIntE at h
  cases hc : pyIntCore cs with
  | none => rw [hc] at h; exact absurd h (by simp)
  | some w => rw [hc] at h; simp at h; rw [h]

lemma pyIntE_error (cs : List Char) (e : PyErr) (h : pyIntE cs = Except.error e) :
    pyIntCore cs = none := by
  unfold pyIntE at h
  cases hc : pyIntCore cs with
  | none => rfl
  | some w => rw [hc] at h; exact absurd h (by simp)

/-- C4: for every win-loss token, splitting on the hyphen and converting
both sides with int() yields two non-negative integers on success, and
fails exactly when the token does not contain exactly one hyphen or one
of the two sides does not parse as an integer. -/
theorem c4_winloss_parse (recTok : String) :
    (∀ w l, parseWinLoss recTok = Except.ok (w, l) → 0 ≤ w ∧ 0 ≤ l) ∧
    ((parseWinLoss recTok).isOk = false ↔
      recTok.data.count '-' ≠ 1 ∨ ∃ p ∈ pySplitHyphen recTok, pyIntCore p = none) := by
  have hlen := pySplitHyphen_length recTok
  rcases hsp : pySplitHyphen recTok with _ | ⟨a, tl⟩
  · rw [hsp] at hlen; simp at hlen
  · rcases tl with _ | ⟨b, tl2⟩
    · rw [hsp] at hlen
      simp only [List.length_singleton] at hlen
      have hcnt : recTok.data.count '-' ≠ 1 := by omega
      unfold parseWinLoss
      rw [hsp]
      dsimp only
      constructor
      · intro w l hok
        exact absurd hok (by simp)
      · exact iff_of_true rfl (Or.inl hcnt)
    · rcases tl2 with _ | ⟨c, tl3⟩
      · rw [hsp] at hlen
        simp only [List.length_cons, List.length_nil] at hlen
        have hcnt : recTok.data.count '-' = 1 := by omega
        have hamem : a ∈ pySplitHyphen recTok := by
          rw [hsp]; exact List.mem_cons_self a _
        have hbmem : b ∈ pySplitHyphen recTok := by rw [hsp]; simp
        have hano := pySplitHyphen_no_hyphen recTok a hamem
        have hbno := pySplitHyphen_no_hyphen recTok b hbmem
        unfold parseWinLoss
        rw [hsp]
        dsimp only
        rcases hia : pyIntE a with ea | wv
        · dsimp only
          have hca : pyIntCore a = none := pyIntE_error a ea hia
          constructor
          · intro w l hok; exact absurd hok (by simp)
          · exact iff_of_true rfl (Or.inr ⟨a, List.mem_cons_self a _, hca⟩)
        · dsimp only
          rcases hib : pyIntE b with eb | lv
          · dsimp only
            have hcb : pyIntCore b = none := pyIntE_error b eb hib
            constructor
            · intro w l hok; exact absurd hok (by simp)
            · exact iff_of_true rfl (Or.inr ⟨b, by simp, hcb⟩)
          · dsimp only
            constructor
            · intro w l hok
              have hpair : (wv, lv) = (w, l) := Except.ok.inj hok
              have hw1 : wv = w := congrArg Prod.fst hpair
              have hl1 : lv = l := congrArg Prod.snd hpair
              subst hw1
              subst hl1
              exact ⟨pyIntCore_nonneg a wv hano (pyIntE_ok a wv hia),
                pyIntCore_nonneg b lv hbno (pyIntE_ok b lv hib)⟩
            · refine iff_of_false (fun hfa => Bool.noConfusion hfa) ?_
              rintro (hc1 | ⟨p, hpm, hpc⟩)
              · exact hc1 hcnt
              · rcases List.mem_cons.mp hpm with rfl | hpm2
                · rw [pyIntE_ok p wv hia] at hpc; exact absurd hpc (by simp)
                · rcases List.mem_cons.mp hpm2 with rfl | h3
                  · rw [pyIntE_ok p lv hib] at hpc; exact absurd hpc (by simp)
                  · simp at h3
      · rw [hsp] at hlen
        simp only [List.length_cons] at hlen
        have hcnt : recTok.data.count '-' ≠ 1 := by omega
        unfold parseWinLoss
        rw [hsp]
        dsimp only
        constructor
        · intro w l hok
          exact absurd hok (by simp)
        · exact iff_of_true rfl (Or.inl hcnt)

/-- Witness for C4 at the concrete token 30-4. -/
theorem c4_witness :
    parseWinLoss "30-4" = Except.ok (30, 4) ∧ 0 ≤ (30 : Int) ∧ 0 ≤ (4 : Int) :=
  ⟨by decide, (c4_winloss_parse "30-4").1 30 4 (by decide)⟩

/-! ## Lemmas about whitespace stripping and the numeric grammars -/

lemma dropWhile_append_ws (a : List Char) (x : List Char)
    (ha : ∀ c ∈ a, isWs c = true) :
    List.dropWhile isWs (a ++ x) = List.dropWhile isWs x := by
  induction a with
  | nil => rfl
  | cons c a ih =>
    have hc : isWs c = true := ha c (List.mem_cons_self c a)
    simp only [List.cons_append, List.dropWhile_cons, hc, if_true]
    exact ih (fun d hd => ha d (List.mem_cons_of_mem c hd))

lemma trimRight_append_ws (x b : List Char) (hb : ∀ c ∈ b, isWs c = true) :
    trimRight (x ++ b) = trimRight x := by
  unfold trimRight
  rw [List.reverse_append,
    dropWhile_append_ws b.reverse x.reverse (fun c hc => hb c (List.mem_reverse.mp hc))]

lemma stripWs_pad (a s b : List Char) (ha : ∀ c ∈ a, isWs c = true)
    (hb : ∀ c ∈ b, isWs c = true) : stripWs (a ++ s ++ b) = stripWs s := by
  unfold stripWs
  rw [List.append_assoc]
  rw [show trimLeft (a ++ (s ++ b)) = trimLeft (s ++ b) from
    dropWhile_append_ws a (s ++ b) ha]
  induction s with
  | nil =>
    rw [show trimLeft ([] ++ b) = trimLeft b from rfl]
    rw [show trimLeft b = List.dropWhile isWs b from rfl]
    rw [show List.dropWhile isWs b = List.dropWhile isWs (b ++ []) from by simp,
      dropWhile_append_ws b [] hb]
    rfl
  | cons c s ih =>
    by_cases hc : isWs c
    · rw [show trimLeft ((c :: s) ++ b) = trimLeft (s ++ b) from by
        simp [trimLeft, List.dropWhile_cons, hc]]
      rw [show trimLeft (c :: s) = trimLeft s from by
        simp [trimLeft, List.dropWhile_cons, hc]]
      exact ih
    · rw [show trimLeft ((c :: s) ++ b) = (c :: s) ++ b from by
        simp [trimLeft, List.dropWhile_cons, hc]]
      rw [show trimLeft (c :: s) = c :: s from by
        simp [trimLeft, List.dropWhile_cons, hc]]
      exact trimRight_append_ws (c :: s) b hb

lemma mem_dropWhile_of_not (p : Char → Bool) (c : Char) (cs : List Char)
    (hc : p c = false) (h : c ∈ cs) : c ∈ cs.dropWhile p := by
  induction cs with
  | nil => simp at h
  | cons a l ih =>
    by_cases hp : p a
    · rw [List.dropWhile_cons, if_pos hp]
      rcases List.mem_cons.mp h with rfl | h2
      · rw [hp] at hc; exact absurd hc (by simp)
      · exact ih h2
    · rw [List.dropWhile_cons, if_neg hp]
      exact h

lemma mem_stripWs_of_not_ws (c : Char) (cs : List Char) (hc : isWs c = false)
    (h : c ∈ cs) : c ∈ stripWs cs := by
  unfold stripWs trimRight trimLeft
  rw [List.mem_reverse]
  refine mem_dropWhile_of_not isWs c _ hc ?_
  rw [List.mem_reverse]
  exact mem_dropWhile_of_not isWs c cs hc h

lemma consumeDigits_sub_n : ∀ (n : Nat) (l : List Char), l.length ≤ n → ∀ acc k,
    ∃ pre, l = pre ++ (consumeDigits acc k l).2.2 ∧
      ∀ c ∈ pre, c.isDigit = true ∨ c = '_' := by
  intro n
  induction n with
  | zero =>
    intro l hl acc k
    have hnil : l = [] := List.length_eq_zero.mp (Nat.le_zero.mp hl)
    subst hnil
    exact ⟨[], rfl, by simp⟩
  | succ n ihn =>
    intro l hl acc k
    match l with
    | [] => exact ⟨[], rfl, by simp⟩
    | [c] =>
      by_cases hc : c.isDigit
      · refine ⟨[c], ?_, ?_⟩
        · rw [show consumeDigits acc k [c] = (10 * acc + dval c, k + 1, []) from by
            simp [consumeDigits, hc]]
          simp
        · intro x hx
          rcases List.mem_cons.mp hx with rfl | h2
          · exact Or.inl hc
          · simp at h2
      · refine ⟨[], ?_, by simp⟩
        rw [show consumeDigits acc k [c] = (acc, k, [c]) from by simp [consumeDigits, hc]]
        rfl
    | c :: c' :: cs =>
      have hlen2 : cs.length + 1 ≤ n := by
        simp only [List.length_cons] at hl
        omega
      by_cases hc : c.isDigit
      · obtain ⟨pre, hpre, hleg⟩ :=
          ihn (c' :: cs) (by simpa using hlen2) (10 * acc + dval c) (k + 1)
        refine ⟨c :: pre, ?_, ?_⟩
        · rw [show consumeDigits acc k (c :: c' :: cs) =
            consumeDigits (10 * acc + dval c) (k + 1) (c' :: cs) from by
              simp [consumeDigits, hc]]
          rw [List.cons_append]
          exact congrArg (c :: ·) hpre
        · intro x hx
          rcases List.mem_cons.mp hx with rfl | h2
          · exact Or.inl hc
          · exact hleg x h2
      · by_cases hu : c = '_' ∧ 0 < k ∧ c'.isDigit
        · obtain ⟨pre, hpre, hleg⟩ :=
            ihn cs (by omega) (10 * acc + dval c') (k + 1)
          refine ⟨c :: c' :: pre, ?_, ?_⟩
          · rw [show consumeDigits acc k (c :: c' :: cs) =
              consumeDigits (10 * acc + dval c') (k + 1) cs from by
                simp [consumeDigits, hc, hu.1, hu.2.1, hu.2.2]]
            rw [List.cons_append, List.cons_append]
            exact congrArg (fun t => c :: c' :: t) hpre
          · intro x hx
            rcases List.mem_cons.mp hx with rfl | h2
            · exact Or.inr hu.1
            · rcases List.mem_cons.mp h2 with rfl | h3
              · exact Or.inl hu.2.2
              · exact hleg x h3
        · refine ⟨[], ?_, by simp⟩
          rw [show consumeDigits acc k (c :: c' :: cs) = (acc, k, c :: c' :: cs) from by
            simp only [consumeDigits, if_neg hc]
            rw [if_neg hu]]
          rfl

lemma consumeDigits_sub (l : List Char) (acc k : Nat) :
    ∃ pre, l = pre ++ (consumeDigits acc k l).2.2 ∧
      ∀ c ∈ pre, c.isDigit = true ∨ c = '_' :=
  consumeDigits_sub_n l.length l (Nat.le_refl _) acc k

lemma afterSign_sub (cs : List Char) :
    ∃ pre, cs = pre ++ (afterSign cs).2 ∧ ∀ c ∈ pre, c = '+' ∨ c = '-' := by
  cases cs with
  | nil => exact ⟨[], rfl, by simp⟩
  | cons c r =>
    by_cases hp : c = '+'
    · subst hp
      refine ⟨['+'], ?_, by simp⟩
      rw [show afterSign ('+' :: r) = (false, r) from by simp [afterSign]]
      rfl
    · by_cases hm : c = '-'
      · subst hm
        refine ⟨['-'], ?_, by simp⟩
        rw [show afterSign ('-' :: r) = (true, r) from by simp [afterSign]]
        rfl
      · refine ⟨[], ?_, by simp⟩
        rw [show afterSign (c :: r) = (false, c :: r) from by simp [afterSign, hp, hm]]
        rfl

lemma fracPart_sub (cs : List Char) :
    ∃ pre, cs = pre ++ (fracPart cs).2.2 ∧
      ∀ c ∈ pre, c.isDigit = true ∨ c = '_' ∨ c = '.' := by
  cases cs with
  | nil => exact ⟨[], rfl, by simp⟩
  | cons c r =>
    by_cases hd : c = '.'
    · subst hd
      obtain ⟨pre, hpre, hleg⟩ := consumeDigits_sub r 0 0
      refine ⟨'.' :: pre, ?_, ?_⟩
      · rw [show fracPart ('.' :: r) = consumeDigits 0 0 r from by simp [fracPart]]
        rw [List.cons_append]
        exact congrArg ('.' :: ·) hpre
      · intro x hx
        rcases List.mem_cons.mp hx with rfl | h2
        · exact Or.inr (Or.inr rfl)
        · rcases hleg x h2 with h3 | h3
          · exact Or.inl h3
          · exact Or.inr (Or.inl h3)
    · refine ⟨[], ?_, by simp⟩
      rw [show fracPart (c :: r) = (0, 0, c :: r) from by simp [fracPart, hd]]
      rfl

lemma pyIntStripped_legal (cs : List Char) (v : Int) (h : pyIntStripped cs = some v) :
    ∀ c ∈ cs, c.isDigit = true ∨ c = '+' ∨ c = '-' ∨ c = '_' := by
  obtain ⟨pre0, hpre0, hleg0⟩ := afterSign_sub cs
  unfold pyIntStripped at h
  rcases hsgn : afterSign cs with ⟨neg, cs1⟩
  rw [hsgn] at h hpre0
  dsimp only at h hpre0
  obtain ⟨pre1, hpre1, hleg1⟩ := consumeDigits_sub cs1 0 0
  rcases hcd : consumeDigits 0 0 cs1 with ⟨w, k, rest⟩
  rw [hcd] at h hpre1
  dsimp only at h hpre1
  have hrest : rest = [] := by
    by_cases hk : k = 0 ∨ rest ≠ []
    · rw [if_pos hk] at h; exact absurd h (by simp)
    · push_neg at hk; exact hk.2
  subst hrest
  intro c hc
  rw [hpre0] at hc
  rcases List.mem_append.mp hc with hc0 | hc1
  · rcases hleg0 c hc0 with h1 | h1
    · exact Or.inr (Or.inl h1)
    · exact Or.inr (Or.inr (Or.inl h1))
  · rw [hpre1, List.append_nil] at hc1
    rcases hleg1 c hc1 with h1 | h1
    · exact Or.inl h1
    · exact Or.inr (Or.inr (Or.inr h1))

lemma pyFloatStripped_legal (cs : List Char) (v : ℚ) (h : pyFloatStripped cs = some v) :
    ∀ c ∈ cs, c.isDigit = true ∨ c = '+' ∨ c = '-' ∨ c = '_' ∨ c = '.' ∨ c = 'e' ∨ c = 'E' := by
  obtain ⟨pre0, hpre0, hleg0⟩ := afterSign_sub cs
  unfold pyFloatStripped at h
  rcases hsgn : afterSign cs with ⟨neg, cs1⟩
  rw [hsgn] at h hpre0
  dsimp only at h hpre0
  obtain ⟨pre1, hpre1, hleg1⟩ := consumeDigits_sub cs1 0 0
  rcases hcd : consumeDigits 0 0 cs1 with ⟨ip, ik, cs2⟩
  rw [hcd] at h hpre1
  dsimp only at h hpre1
  obtain ⟨pre2, hpre2, hleg2⟩ := fracPart_sub cs2
  rcases hfp : fracPart cs2 with ⟨fp, fk, cs3⟩
  rw [hfp] at h hpre2
  dsimp only at h hpre2
  by_cases hik : ik + fk = 0
  · rw [if_pos hik] at h; exact absurd h (by simp)
  · rw [if_neg hik] at h
    have hchars : ∀ c ∈ cs3,
        c.isDigit = true ∨ c = '+' ∨ c = '-' ∨ c = '_' ∨ c = 'e' ∨ c = 'E' := by
      split at h
      · intro c hc; simp at hc
      · rename_i r
        have hex : ∃ ex, pyIntStripped r = some ex := by
          cases hpi : pyIntStripped r with
          | none => rw [hpi] at h; exact absurd h (by simp)
          | some ex => exact ⟨ex, rfl⟩
        obtain ⟨ex, hex⟩ := hex
        have hlegr := pyIntStripped_legal r ex hex
        intro c hc
        rcases List.mem_cons.mp hc with rfl | hc2
        · exact Or.inr (Or.inr (Or.inr (Or.inr (Or.inl rfl))))
        · rcases hlegr c hc2 with h1 | h1 | h1 | h1
          · exact Or.inl h1
          · exact Or.inr (Or.inl h1)
          · exact Or.inr (Or.inr (Or.inl h1))
          · exact Or.inr (Or.inr (Or.inr (Or.inl h1)))
      · rename_i r
        have hex : ∃ ex, pyIntStripped r = some ex := by
          cases hpi : pyIntStripped r with
          | none => rw [hpi] at h; exact absurd h (by simp)
          | some ex => exact ⟨ex, rfl⟩
        obtain ⟨ex, hex⟩ := hex
        have hlegr := pyIntStripped_legal r ex hex
        intro c hc
        rcases List.mem_cons.mp hc with rfl | hc2
        · exact Or.inr (Or.inr (Or.inr (Or.inr (Or.inr rfl))))
        · rcases hlegr c hc2 with h1 | h1 | h1 | h1
          · exact Or.inl h1
          · exact Or.inr (Or.inl h1)
          · exact Or.inr (Or.inr (Or.inl h1))
          · exact Or.inr (Or.inr (Or.inr (Or.inl h1)))
      · exact absurd h (by simp)
    intro c hc
    rw [hpre0] at hc
    rcases List.mem_append.mp hc with hc0 | hcr
    · rcases hleg0 c hc0 with h1 | h1
      · exact Or.inr (Or.inl h1)
      · exact Or.inr (Or.inr (Or.inl h1))
    · rw [hpre1] at hcr
      rcases List.mem_append.mp hcr with hc1 | hcr2
      · rcases hleg1 c hc1 with h1 | h1
        · exact Or.inl h1
        · exact Or.inr (Or.inr (Or.inr (Or.inl h1)))
      · rw [hpre2] at hcr2
        rcases List.mem_append.mp hcr2 with hc2 | hc3
        · rcases hleg2 c hc2 with h1 | h1 | h1
          · exact Or.inl h1
          · exact Or.inr (Or.inr (Or.inr (Or.inl h1)))
          · exact Or.inr (Or.inr (Or.inr (Or.inr (Or.inl h1))))
        · rcases hchars c hc3 with h1 | h1 | h1 | h1 | h1 | h1
          · exact Or.inl h1
          · exact Or.inr (Or.inl h1)
          · exact Or.inr (Or.inr (Or.inl h1))
          · exact Or.inr (Or.inr (Or.inr (Or.inl h1)))
          · exact Or.inr (Or.inr (Or.inr (Or.inr (Or.inr (Or.inl h1)))))
          · exact Or.inr (Or.inr (Or.inr (Or.inr (Or.inr (Or.inr h1)))))

/-- C7: numeric field coercion in the builder trims surrounding whitespace
before parsing (padding any token with whitespace leaves both the float
and the int coercion result unchanged), and any token containing a comma
thousands separator is rejected by both coercions, so the builder fails
with an error on it. -/
theorem c7_numeric_coercion :
    (∀ (a s b : List Char), (∀ c ∈ a, isWs c = true) → (∀ c ∈ b, isWs c = true) →
      pyFloatCore (a ++ s ++ b) = pyFloatCore s ∧ pyIntCore (a ++ s ++ b) = pyIntCore s) ∧
    (∀ s : List Char, ',' ∈ s → pyFloatCore s = none ∧ pyIntCore s = none) := by
  constructor
  · intro a s b ha hb
    unfold pyFloatCore pyIntCore
    rw [stripWs_pad a s b ha hb]
    exact ⟨rfl, rfl⟩
  · intro s hmem
    have hcs : ',' ∈ stripWs s := mem_stripWs_of_not_ws ',' s (by decide) hmem
    constructor
    · cases hres : pyFloatCore s with
      | none => rfl
      | some v =>
        exfalso
        have := pyFloatStripped_legal (stripWs s) v hres ',' hcs
        rcases this with h1 | h1 | h1 | h1 | h1 | h1 | h1 <;> simp at h1
    · cases hres : pyIntCore s with
      | none => rfl
      | some v =>
        exfalso
        have := pyIntStripped_legal (stripWs s) v hres ',' hcs
        rcases this with h1 | h1 | h1 | h1 <;> simp at h1

/-- Witness for C7: a whitespace-padded statistic token parses like the
trimmed token, and a comma-containing token is rejected. -/
theorem c7_witness :
    (pyFloatCore ([' '] ++ "28.5".data ++ [' ']) = pyFloatCore "28.5".data ∧
      pyIntCore ([' '] ++ "28.5".data ++ [' ']) = pyIntCore "28.5".data) ∧
    (pyFloatCore "1,234.5".data = none ∧ pyIntCore "1,234.5".data = none) :=
  ⟨c7_numeric_coercion.1 [' '] "28.5".data [' '] (by decide) (by decide),
   c7_numeric_coercion.2 "1,234.5".data (by decide)⟩

/-! ## Lemmas about the result dict and the builder loop -/

lemma dictLookup_insert_same (k : String) (v : Team) (d : List (String × Team)) :
    dictLookup k (dictInsert k v d) = some v := by
  induction d with
  | nil => simp [dictInsert, dictLookup]
  | cons p rest ih =>
    rcases p with ⟨k1, v1⟩
    by_cases hk : k1 = k
    · subst hk; simp [dictInsert, dictLookup]
    · simp [dictInsert, dictLookup, hk, ih]

lemma dictLookup_insert_ne (key k : String) (v : Team) (d : List (String × Team))
    (hne : k ≠ key) : dictLookup key (dictInsert k v d) = dictLookup key d := by
  induction d with
  | nil => simp [dictInsert, dictLookup, hne]
  | cons p rest ih =>
    rcases p with ⟨k1, v1⟩
    by_cases hk : k1 = k
    · subst hk
      simp [dictInsert, dictLookup, hne]
    · by_cases hkey : k1 = key
      · subst hkey; simp [dictInsert, dictLookup, hk]
      · simp [dictInsert, dictLookup, hk, hkey, ih]

lemma countKey_insert_same (k : String) (v : Team) (d : List (String × Team)) :
    countKey k (dictInsert k v d) =
      if countKey k d = 0 then 1 else countKey k d := by
  induction d with
  | nil => simp [dictInsert, countKey]
  | cons p rest ih =>
    rcases p with ⟨k1, v1⟩
    by_cases hk : k1 = k
    · subst hk
      simp [dictInsert, countKey]
    · simp only [dictInsert, if_neg hk, countKey, ih]
      by_cases h0 : countKey k rest = 0 <;> simp [hk, h0]

lemma countKey_insert_ne (key k : String) (v : Team) (d : List (String × Team))
    (hne : k ≠ key) : countKey key (dictInsert k v d) = countKey key d := by
  induction d with
  | nil => simp [dictInsert, countKey, hne]
  | cons p rest ih =>
    rcases p with ⟨k1, v1⟩
    by_cases hk : k1 = k
    · subst hk
      simp [dictInsert, countKey, hne]
    · simp [dictInsert, countKey, hk, ih]

lemma createTeamsAux_lookup (name : String) :
    ∀ (rows : List (List String)) (teams m : List (String × Team)),
      createTeamsAux teams rows = Except.ok m →
      dictLookup name m = (match lastNamed name rows with
        | some r => (parseRow r).toOption.map Prod.snd
        | none => dictLookup name teams) := by
  intro rows
  induction rows with
  | nil =>
    intro teams m h
    have hm : teams = m := by simpa [createTeamsAux] using h
    subst hm
    rfl
  | cons row rest ih =>
    intro teams m h
    unfold createTeamsAux at h
    rcases hp : parseRow row with e | ⟨n, team⟩
    · rw [hp] at h; exact absurd h (by simp)
    · rw [hp] at h
      dsimp only at h
      have hrec := ih (dictInsert n team teams) m h
      rw [show lastNamed name (row :: rest) = (match lastNamed name rest with
        | some r => some r
        | none => if rowNamed name row then some row else none) from rfl]
      cases hl : lastNamed name rest with
      | some r =>
        rw [hl] at hrec
        exact hrec
      | none =>
        rw [hl] at hrec
        dsimp only at hrec
        dsimp only
        by_cases hnm : rowNamed name row
        · rw [if_pos hnm]
          have hn : n = name := by
            unfold rowNamed at hnm
            rw [hp] at hnm
            simpa using hnm
          subst hn
          rw [dictLookup_insert_same] at hrec
          dsimp only
          rw [hp, hrec]
          rfl
        · rw [if_neg hnm]
          have hn : n ≠ name := by
            intro heq
            apply hnm
            unfold rowNamed
            rw [hp, heq]
            simp
          rw [dictLookup_insert_ne name n team teams hn] at hrec
          exact hrec

lemma createTeamsAux_count (name : String) :
    ∀ (rows : List (List String)) (teams m : List (String × Team)),
      createTeamsAux teams rows = Except.ok m →
      countKey name m = (if lastNamed name rows = none then countKey name teams
        else if countKey name teams = 0 then 1 else countKey name teams) := by
  intro rows
  induction rows with
  | nil =>
    intro teams m h
    have hm : teams = m := by simpa [createTeamsAux] using h
    subst hm
    rfl
  | cons row rest ih =>
    intro teams m h
    unfold createTeamsAux at h
    rcases hp : parseRow row with e | ⟨n, team⟩
    · rw [hp] at h; exact absurd h (by simp)
    · rw [hp] at h
      dsimp only at h
      have hrec := ih (dictInsert n team teams) m h
      rw [show lastNamed name (row :: rest) = (match lastNamed name rest with
        | some r => some r
        | none => if rowNamed name row then some row else none) from rfl]
      by_cases hn : n = name
      · subst hn
        rw [countKey_insert_same] at hrec
        have hnm : rowNamed n row = true := by
          unfold rowNamed
          rw [hp]
          simp
        cases hl : lastNamed n rest with
        | some r =>
          rw [hl] at hrec
          rw [if_neg (by simp)] at hrec
          dsimp only
          rw [if_neg (by simp)]
          by_cases h0 : countKey n teams = 0
          · simp only [h0, if_pos rfl] at hrec ⊢
            simpa using hrec
          · simp only [h0, if_neg h0] at hrec ⊢
            simpa [h0] using hrec
        | none =>
          rw [hl] at hrec
          rw [if_pos rfl] at hrec
          dsimp only
          rw [if_pos hnm, if_neg (by simp)]
          exact hrec
      · rw [countKey_insert_ne name n team teams hn] at hrec
        have hnm : rowNamed name row = false := by
          unfold rowNamed
          rw [hp]
          simpa using hn
        cases hl : lastNamed name rest with
        | some r =>
          rw [hl] at hrec
          rw [if_neg (by simp)] at hrec
          dsimp only
          rw [if_neg (by simp)]
          exact hrec
        | none =>
          rw [hl] at hrec
          rw [if_pos rfl] at hrec
          dsimp only
          rw [hnm]
          simpa using hrec

lemma lastNamed_isSome_of_countP (name : String) (rows : List (List String))
    (h : 0 < rows.countP (rowNamed name)) : lastNamed name rows ≠ none := by
  induction rows with
  | nil => simp at h
  | cons row rest ih =>
    rw [List.countP_cons] at h
    unfold lastNamed
    cases hl : lastNamed name rest with
    | some r => simp
    | none =>
      have hz : rest.countP (rowNamed name) = 0 := by
        by_contra hpos
        exact ih (Nat.pos_of_ne_zero hpos) hl
      rw [hz] at h
      have hrow : rowNamed name row = true := by
        by_cases hb : rowNamed name row
        · exact hb
        · simp [hb] at h
      rw [hrow]
      simp

lemma lastNamed_spec (name : String) (rows : List (List String)) (r : List String)
    (h : lastNamed name rows = some r) : rowNamed name r = true := by
  induction rows with
  | nil => simp [lastNamed] at h
  | cons row rest ih =>
    unfold lastNamed at h
    cases hl : lastNamed name rest with
    | some x =>
      rw [hl] at h
      dsimp only at h
      have hx : x = r := Option.some.inj h
      subst hx
      exact ih hl
    | none =>
      rw [hl] at h
      dsimp only at h
      by_cases hb : rowNamed name row
      · rw [if_pos hb] at h
        have hx : row = r := Option.some.inj h
        subst hx
        exact hb
      · rw [if_neg hb] at h
        exact absurd h (by simp)

/-- C10: whenever the builder succeeds on a row list in which two or more
rows parse to the same name, the result mapping holds exactly one entry
for that name, and its value is the Record parsed from the last such row
in document order. -/
theorem c10_overwrite (rows : List (List String)) (m : List (String × Team)) (name : String)
    (hok : _create_teams rows = Except.ok m)
    (hdup : 2 ≤ rows.countP (rowNamed name)) :
    countKey name m = 1 ∧
      ∃ r team, lastNamed name rows = some r ∧ parseRow r = Except.ok (name, team) ∧
        dictLookup name m = some team := by
  have hlast : lastNamed name rows ≠ none :=
    lastNamed_isSome_of_countP name rows (by omega)
  obtain ⟨r, hr⟩ : ∃ r, lastNamed name rows = some r := by
    cases hlr : lastNamed name rows with
    | none => exact absurd hlr hlast
    | some r => exact ⟨r, rfl⟩
  have hcount := createTeamsAux_count name rows [] m hok
  have hlook := createTeamsAux_lookup name rows [] m hok
  rw [hr] at hcount hlook
  constructor
  · rw [hcount, if_neg (by simp)]
    simp [countKey]
  · have hrn := lastNamed_spec name rows r hr
    unfold rowNamed at hrn
    rcases hp : parseRow r with e | ⟨n, team⟩
    · rw [hp] at hrn; simp at hrn
    · rw [hp] at hrn
      have hn : n = name := by simpa using hrn
      subst hn
      refine ⟨r, team, hr, hp, ?_⟩
      rw [hlook]
      dsimp only
      rw [hp]
      rfl

/-- Witness for C10 at two concrete rows sharing the name X. -/
theorem c10_witness :
    countKey "X" [("X", simpleTeam2)] = 1 ∧
      ∃ r team, lastNamed "X" [simpleRow, simpleRow2] = some r ∧
        parseRow r = Except.ok ("X", team) ∧
        dictLookup "X" [("X", simpleTeam2)] = some team :=
  c10_overwrite [simpleRow, simpleRow2] [("X", simpleTeam2)] "X" (by decide) (by decide)

/-! ## Non-negativity of wins and losses, and the fail-fast behaviour -/

lemma except_bind_ok {α β : Type} (x : Except PyErr α) (f : α → Except PyErr β) (b : β)
    (h : (x >>= f) = Except.ok b) : ∃ a, x = Except.ok a ∧ f a = Except.ok b := by
  cases x with
  | error e => simp [Bind.bind, Except.bind] at h
  | ok a => exact ⟨a, rfl, by simpa [Bind.bind, Except.bind] using h⟩

lemma parseFields_nonneg (rank name conf recTok e o d t luck o_e o_o o_d nc_o_e : String)
    (n : String) (team : Team)
    (h : parseFields rank name conf recTok e o d t luck o_e o_o o_d nc_o_e =
      Except.ok (n, team)) : 0 ≤ team.wins ∧ 0 ≤ team.losses := by
  unfold parseFields at h
  split at h
  · rename_i wTok lTok heq
    obtain ⟨rankv, h1, h⟩ := except_bind_ok _ _ _ h
    obtain ⟨winsv, h2, h⟩ := except_bind_ok _ _ _ h
    obtain ⟨lossesv, h3, h⟩ := except_bind_ok _ _ _ h
    obtain ⟨ev, h4, h⟩ := except_bind_ok _ _ _ h
    obtain ⟨ov, h5, h⟩ := except_bind_ok _ _ _ h
    obtain ⟨dv2, h6, h⟩ := except_bind_ok _ _ _ h
    obtain ⟨tv, h7, h⟩ := except_bind_ok _ _ _ h
    obtain ⟨luckv, h8, h⟩ := except_bind_ok _ _ _ h
    obtain ⟨o_ev, h9, h⟩ := except_bind_ok _ _ _ h
    obtain ⟨o_ov, h10, h⟩ := except_bind_ok _ _ _ h
    obtain ⟨o_dv, h11, h⟩ := except_bind_ok _ _ _ h
    obtain ⟨nc_o_ev, h12, h⟩ := except_bind_ok _ _ _ h
    have hteam : team = Team.mk rankv name conf winsv lossesv ev ov dv2 tv luckv
        o_ev o_ov o_dv nc_o_ev := by
      have := Except.ok.inj h
      exact (congrArg Prod.snd this).symm
    subst hteam
    have hwmem : wTok ∈ pySplitHyphen recTok := by
      rw [heq]; exact List.mem_cons_self wTok _
    have hlmem : lTok ∈ pySplitHyphen recTok := by rw [heq]; simp
    constructor
    · exact pyIntCore_nonneg wTok winsv (pySplitHyphen_no_hyphen recTok wTok hwmem)
        (by unfold pyIntE at h2
            cases hc : pyIntCore wTok with
            | none => rw [hc] at h2; exact absurd h2 (by simp)
            | some w => rw [hc] at h2; simp at h2; rw [h2])
    · exact pyIntCore_nonneg lTok lossesv (pySplitHyphen_no_hyphen recTok lTok hlmem)
        (by unfold pyIntE at h3
            cases hc : pyIntCore lTok with
            | none => rw [hc] at h3; exact absurd h3 (by simp)
            | some w => rw [hc] at h3; simp at h3; rw [h3])
  · exact absurd h (by simp)

lemma parseRow_nonneg (row : List String) (n : String) (team : Team)
    (h : parseRow row = Except.ok (n, team)) : 0 ≤ team.wins ∧ 0 ≤ team.losses := by
  unfold parseRow at h
  split at h
  · exact parseFields_nonneg _ _ _ _ _ _ _ _ _ _ _ _ _ n team h
  · exact absurd h (by simp)

/-- C8 counterexample: the Record Builder accepts a row whose rank token is
the numeral 0 and produces a mapping whose Record has rank 0, violating
the claimed invariant that every produced Record has rank at least 1. -/
theorem c8_counterexample :
    _create_teams [rankZeroRow] =
      Except.ok [("X", Team.mk 0 "X" "C" 1 0 1 1 1 1 1 1 1 1 1)] ∧
      ¬ (1 ≤ (Team.mk 0 "X" "C" 1 0 1 1 1 1 1 1 1 1 1 : Team).rank) := by decide

/-- C8 (amended): every Record in any mapping produced by the Record
Builder has wins at least 0 and losses at least 0; rank is the integer
parsed from the rank token and is not validated to be positive. -/
theorem c8_amended (rows : List (List String)) (m : List (String × Team))
    (name : String) (team : Team) (hok : _create_teams rows = Except.ok m)
    (hlk : dictLookup name m = some team) :
    0 ≤ team.wins ∧ 0 ≤ team.losses := by
  have hlook := createTeamsAux_lookup name rows [] m hok
  cases hl : lastNamed name rows with
  | none =>
    rw [hl] at hlook
    dsimp only at hlook
    rw [hlk] at hlook
    simp [dictLookup] at hlook
  | some r =>
    rw [hl] at hlook
    dsimp only at hlook
    rw [hlk] at hlook
    rcases hp : parseRow r with e | ⟨n, t2⟩
    · rw [hp] at hlook
      exact absurd (hlook : some team = none) (Option.some_ne_none team)
    · rw [hp] at hlook
      have ht : t2 = team := by
        have hlook2 : some team = some t2 := hlook
        exact (Option.some.inj hlook2).symm
      subst ht
      exact parseRow_nonneg r n t2 hp

/-- Witness for C8 at the one-row input whose team is X. -/
theorem c8_witness : 0 ≤ simpleTeam.wins ∧ 0 ≤ simpleTeam.losses :=
  c8_amended [simpleRow] [("X", simpleTeam)] "X" simpleTeam (by decide) (by decide)

/-- C5 counterexample: the record-building operation offers no lenient
mode: on a concrete input whose second row has a malformed win-loss token
the whole operation aborts with an error, and the mapping that a lenient
policy would return (the parsed first row only) is not produced.  The
operation takes no policy argument at all. -/
theorem c5_counterexample :
    _create_teams [simpleRow, badRow] = Except.error PyErr.valueError ∧
      _create_teams [simpleRow, badRow] ≠ Except.ok [("X", simpleTeam)] := by decide

lemma createTeamsAux_ok_iff (rows : List (List String)) : ∀ teams,
    (∃ m, createTeamsAux teams rows = Except.ok m) ↔
      ∀ r ∈ rows, (parseRow r).isOk = true := by
  induction rows with
  | nil =>
    intro teams
    constructor
    · intro _ r hr
      simp at hr
    · intro _
      exact ⟨teams, rfl⟩
  | cons row rest ih =>
    intro teams
    unfold createTeamsAux
    rcases hp : parseRow row with e | ⟨n, team⟩
    · dsimp only
      constructor
      · rintro ⟨m, hm⟩
        exact absurd hm (by simp)
      · intro hall
        have hfirst := hall row (List.mem_cons_self row rest)
        rw [hp] at hfirst
        simp [Except.isOk, Except.toBool] at hfirst
    · dsimp only
      constructor
      · rintro ⟨m, hm⟩ r hr
        rcases List.mem_cons.mp hr with rfl | h2
        · rw [hp]; rfl
        · exact ((ih (dictInsert n team teams)).mp ⟨m, hm⟩) r h2
      · intro hall
        exact (ih (dictInsert n team teams)).mpr
          (fun r hr => hall r (List.mem_cons_of_mem row hr))

/-- C5 (amended): the record-building operation is unconditionally
fail-fast: it produces a mapping exactly when every row parses, and any
row that fails to parse aborts the whole operation; no lenient mode or
caller-visible policy configuration exists in the source. -/
theorem c5_fail_fast (rows : List (List String)) :
    (∃ m, _create_teams rows = Except.ok m) ↔
      ∀ r ∈ rows, (parseRow r).isOk = true :=
  createTeamsAux_ok_iff rows []

/-- Witness for C5 at a concrete all-valid input. -/
theorem c5_witness : ∃ m, _create_teams [simpleRow] = Except.ok m :=
  (c5_fail_fast [simpleRow]).mpr (by decide)
